import Mathlib

/-!
# Verification of the instruction-cli core (src/inst.js)

Shallow embedding of the core of `inst.js`: the record store, the pure filter
engine, filter-option validation, month parsing, and the bounded undo/redo
history.  Persisted files (`inst.json`, `undoInst.json`, `redoInst.json`) are
modelled as the three fields of `AppState`; each command handler becomes a pure
function from `AppState` to a typed result together with the next `AppState`.
JavaScript timestamps (`Date`) are modelled by the calendar fields the filter
engine reads (`getFullYear`, `getMonth`+1, `getDate`, and the weekday name
produced by `toLocaleDateString`); JavaScript string/number truthiness is made
explicit via `optStrTruthy` / `optNatTruthy`.
-/

namespace Inst

/-- A timestamp, modelled by the calendar components the filter engine reads.
`weekday` carries the value `getDayName` would compute for the date. -/
structure DateTime where
  year : Nat
  month : Nat
  day : Nat
  weekday : String := ""
deriving DecidableEq, Repr

/-- One instruction record, as stored in `inst.json` (see the object pushed by
the `add` handler in `src/inst.js`). -/
structure Record where
  id : Nat
  source : String
  text : String
  priority : String
  status : String
  added : DateTime
  deadline : Option DateTime
  isDeleted : Bool
  deletedAt : Option DateTime
deriving DecidableEq, Repr

/-- A history entry `{ command, data }` as pushed by `pushToUndoStack` /
`pushToRedoStack`: the command name together with a full store snapshot. -/
structure Entry where
  command : String
  data : List Record
deriving DecidableEq, Repr

/-- The persisted application state: the record store (`inst.json`) and the
two history stacks (`undoInst.json`, `redoInst.json`). -/
structure AppState where
  store : List Record
  undoStack : List Entry
  redoStack : List Entry
deriving DecidableEq, Repr

/-- `CONFIG.MAX_UNDO_REDO_STATES` in `src/inst.js`. -/
def MAX_UNDO_REDO_STATES : Nat := 10

/-- The stack discipline shared by `pushToUndoStack` and `pushToRedoStack`:
`stack.push(entry)` followed by `if (stack.length > MAX) stack.shift()`. -/
def boundedPush (stack : List α) (e : α) : List α :=
  let s := stack ++ [e]
  if MAX_UNDO_REDO_STATES < s.length then s.drop 1 else s

/-- The last `n` elements of a list, in order (used to state the eviction
behaviour of `boundedPush`). -/
def lastN (n : Nat) (l : List α) : List α := l.drop (l.length - n)

/-- `pushToUndoStack(commandName)`: snapshots the current store together with
the command name onto the undo stack. -/
def pushToUndoStack (commandName : String) (s : AppState) : AppState :=
  { s with undoStack := boundedPush s.undoStack { command := commandName, data := s.store } }

/-- `pushToRedoStack(commandName)`: snapshots the current store together with
the command name onto the redo stack. -/
def pushToRedoStack (commandName : String) (s : AppState) : AppState :=
  { s with redoStack := boundedPush s.redoStack { command := commandName, data := s.store } }

/-- `clearRedoStack()`: empties the redo stack. -/
def clearRedoStack (s : AppState) : AppState := { s with redoStack := [] }

/-- `popFromUndoStack()`: if the undo stack is nonempty, pops its top entry,
pushes the current (pre-undo) store onto the redo stack tagged with the popped
command name, replaces the store with the popped snapshot, and returns the
command name; otherwise returns `none` and leaves the state unchanged. -/
def popFromUndoStack (s : AppState) : Option String × AppState :=
  match s.undoStack.getLast? with
  | none => (none, s)
  | some prev =>
    let s1 := pushToRedoStack prev.command s
    (some prev.command,
      { s1 with store := prev.data, undoStack := s.undoStack.dropLast })

/-- `popFromRedoStack()`: symmetric to `popFromUndoStack`. -/
def popFromRedoStack (s : AppState) : Option String × AppState :=
  match s.redoStack.getLast? with
  | none => (none, s)
  | some next =>
    let s1 := pushToUndoStack next.command s
    (some next.command,
      { s1 with store := next.data, redoStack := s.redoStack.dropLast })

/-- JavaScript truthiness of an optional string option: present and not `""`. -/
def optStrTruthy : Option String → Bool
  | none => false
  | some s => s != ""

/-- JavaScript truthiness of an optional numeric option: present and not `0`. -/
def optNatTruthy : Option Nat → Bool
  | none => false
  | some n => n != 0

/-- The filter-criteria bag passed to `filterInstructions` (the recognised
fields of `argv` for `show`/`total`/`export`). `month`, `week`, `year` are the
numbers seen after yargs coercion; `date` and `day` are raw strings. -/
structure Filters where
  priority : Option String := none
  source : Option String := none
  status : Option String := none
  deadline : Bool := false
  all : Bool := false
  date : Option String := none
  day : Option String := none
  month : Option Nat := none
  week : Option Nat := none
  year : Option Nat := none
deriving DecidableEq, Repr

def dateTruthy (f : Filters) : Bool := optStrTruthy f.date
def dayTruthy (f : Filters) : Bool := optStrTruthy f.day
def monthTruthy (f : Filters) : Bool := optNatTruthy f.month
def weekTruthy (f : Filters) : Bool := optNatTruthy f.week
def yearTruthy (f : Filters) : Bool := optNatTruthy f.year

/-- `hasDateFilter` in `filterInstructions`:
`filters.date || filters.day || filters.month || filters.year || filters.week`. -/
def hasDateFilter (f : Filters) : Bool :=
  dateTruthy f || dayTruthy f || monthTruthy f || yearTruthy f || weekTruthy f

/-- JavaScript `toLowerCase()` on the ASCII range (the month names and weekday
names this program compares are ASCII). -/
def jsToLower (s : String) : String := String.mk (s.toList.map Char.toLower)

/-- JavaScript `trim()`: strip leading and trailing whitespace. -/
def jsTrim (s : String) : String :=
  String.mk (((s.toList.dropWhile Char.isWhitespace).reverse.dropWhile Char.isWhitespace).reverse)

/-- Digit list to number, most significant first. -/
def digitsToNat (cs : List Char) : Nat := cs.foldl (fun a c => a * 10 + (c.toNat - 48)) 0

/-- Gregorian leap-year rule (used by the ISO date validity check that
`new Date("YYYY-MM-DD")` performs). -/
def isLeapYear (y : Nat) : Bool := (y % 4 == 0 && y % 100 != 0) || y % 400 == 0

/-- Number of days of month `m` in year `y`. -/
def daysInMonth (y m : Nat) : Nat :=
  if m = 2 then (if isLeapYear y then 29 else 28)
  else if m = 4 ∨ m = 6 ∨ m = 9 ∨ m = 11 then 30
  else 31

/-- The check `/^\d{4}-\d{2}-\d{2}$/.test(s) && !isNaN(new Date(s).getTime())`
from `validateFilterOptions`: the string has the exact `YYYY-MM-DD` shape and
denotes a real calendar date (V8 rejects out-of-range ISO components such as
`2025-02-30` as Invalid Date).  Returns the parsed components. -/
def parseYmd (s : String) : Option (Nat × Nat × Nat) :=
  match s.toList with
  | [y1, y2, y3, y4, c1, m1, m2, c2, d1, d2] =>
    if c1 = '-' ∧ c2 = '-' ∧ [y1, y2, y3, y4, m1, m2, d1, d2].all Char.isDigit then
      let y := digitsToNat [y1, y2, y3, y4]
      let m := digitsToNat [m1, m2]
      let d := digitsToNat [d1, d2]
      if 1 ≤ m ∧ m ≤ 12 ∧ 1 ≤ d ∧ d ≤ daysInMonth y m then some (y, m, d) else none
    else none
  | _ => none

def isValidDateString (s : String) : Bool := (parseYmd s).isSome

/-- `getWeekOfMonth`: `Math.ceil(date.getDate() / 7)`; for day-of-month `d ≥ 1`
this equals `(d + 6) / 7` in natural division. -/
def getWeekOfMonth (t : DateTime) : Nat := (t.day + 6) / 7

/-- The `dateMatch` conjunct of `checkDate`: either no (truthy) `date` filter,
or the record timestamp falls on that calendar day. -/
def dateMatchB (f : Filters) (t : DateTime) : Bool :=
  match f.date with
  | none => true
  | some ds =>
    if ds = "" then true
    else match parseYmd ds with
      | some (y, m, d) => t.year == y && t.month == m && t.day == d
      | none => false

/-- The `dayMatch` conjunct: weekday name, case-insensitive. -/
def dayMatchB (f : Filters) (t : DateTime) : Bool :=
  match f.day with
  | none => true
  | some d => if d = "" then true else jsToLower t.weekday == jsToLower d

/-- The `monthMatch` conjunct: `date.getMonth() + 1 === filters.month`. -/
def monthMatchB (f : Filters) (t : DateTime) : Bool :=
  match f.month with
  | none => true
  | some m => if m = 0 then true else t.month == m

/-- The `yearMatch` conjunct: `date.getFullYear() === filters.year`. -/
def yearMatchB (f : Filters) (t : DateTime) : Bool :=
  match f.year with
  | none => true
  | some y => if y = 0 then true else t.year == y

/-- The `weekMatch` conjunct: `getWeekOfMonth(date) === filters.week`. -/
def weekMatchB (f : Filters) (t : DateTime) : Bool :=
  match f.week with
  | none => true
  | some w => if w = 0 then true else getWeekOfMonth t == w

/-- `checkDate` inside `filterInstructions`: all specified temporal criteria
must hold of the one timestamp. -/
def checkDate (f : Filters) (t : DateTime) : Bool :=
  dateMatchB f t && dayMatchB f t && monthMatchB f t && yearMatchB f t && weekMatchB f t

/-- `checkDate` applied to a nullable timestamp: `if (!dateString) return false`. -/
def checkDateOpt (f : Filters) : Option DateTime → Bool
  | none => false
  | some t => checkDate f t

/-- One conditional filtering stage of `filterInstructions`:
`if (cond) filteredData = filteredData.filter(p)`. -/
def applyIf (cond : Bool) (p : Record → Bool) (l : List Record) : List Record :=
  if cond then l.filter p else l

/-- `filterInstructions(instructions, filters)` from `src/inst.js`: the pure
filter engine.  Stages in source order: priority, source (case-insensitive),
status, deadline presence, the default non-deleted restriction (skipped under
`--all`), then the temporal stage, which keeps a record when either its
`added` or its `deadline` timestamp meets all specified temporal criteria. -/
def filterInstructions (instructions : List Record) (f : Filters) : List Record :=
  let d0 := instructions
  let d1 := applyIf (optStrTruthy f.priority) (fun i => i.priority == f.priority.getD "") d0
  let d2 := applyIf (optStrTruthy f.source) (fun i => jsToLower i.source == jsToLower (f.source.getD "")) d1
  let d3 := applyIf (optStrTruthy f.status) (fun i => i.status == f.status.getD "") d2
  let d4 := applyIf f.deadline (fun i => i.deadline.isSome) d3
  let d5 := applyIf (!f.all) (fun i => !i.isDeleted) d4
  applyIf (hasDateFilter f) (fun i => checkDate f i.added || checkDateOpt f i.deadline) d5

/-- Error message for a malformed `--date` value. -/
def dateFormatErr : String := "Invalid date format for --date. Please use YYYY-MM-DD."

/-- Error message for `--date` mixed with another time filter. -/
def dateMixErr : String := "Cannot use --date with other time filters like --day, --month, etc."

/-- Error message for `--week` without `--month`. -/
def weekMonthErr : String := "The --week filter must be used with the --month filter."

/-- `validateFilterOptions(options)` from `src/inst.js`, run by yargs `.check`
before any command handler: `none` means valid, `some e` is the error text. -/
def validateFilterOptions (f : Filters) : Option String :=
  if dateTruthy f then
    if !isValidDateString (f.date.getD "") then some dateFormatErr
    else if dayTruthy f || monthTruthy f || weekTruthy f || yearTruthy f then some dateMixErr
    else if weekTruthy f && !monthTruthy f then some weekMonthErr
    else none
  else if weekTruthy f && !monthTruthy f then some weekMonthErr
  else none

/-- The `show`/`list` command pipeline relevant to the core: validation first
(yargs `.check`), then the pure filter over the loaded store.  The state is
returned unchanged: the read-only commands never write any file. -/
def showCmd (f : Filters) (s : AppState) : Except String (List Record) × AppState :=
  match validateFilterOptions f with
  | some e => (Except.error e, s)
  | none => (Except.ok (filterInstructions s.store f), s)

/-- An apostrophe, built without a quote character. -/
def sq : String := String.mk [Char.ofNat 39]

/-- The message thrown by `monthCoercion`: `Invalid month: '<input>'.` -/
def invalidMonthMsg (s : String) : String := "Invalid month: " ++ sq ++ s ++ sq ++ "."

/-- The month-name lookup table from `parseMonth`. -/
def monthPairs : List (String × Nat) :=
  [("january", 1), ("jan", 1), ("february", 2), ("feb", 2), ("march", 3), ("mar", 3),
   ("april", 4), ("apr", 4), ("may", 5), ("june", 6), ("jun", 6), ("july", 7), ("jul", 7),
   ("august", 8), ("aug", 8), ("september", 9), ("sep", 9), ("october", 10), ("oct", 10),
   ("november", 11), ("nov", 11), ("december", 12), ("dec", 12)]

/-- What a bracket lookup on the `monthMap` object literal can produce.
`monthMap` is a plain object, so `monthMap[key]` also reaches the inherited
`Object.prototype` members; the lookup key is the lowercased, trimmed input,
and the only all-lowercase inherited property names are `constructor` (the
`Object` constructor function) and `__proto__` (the `Object.prototype`
object), both truthy, so they survive the `|| null` guard. -/
inductive MonthValue where
  | num (n : Nat)
  | protoMember (key : String)
deriving DecidableEq, Repr

/-- `monthMap[key] || null` for an already lowercased/trimmed `key`: an own
key resolves to its month number; the inherited all-lowercase
`Object.prototype` names `constructor` and `__proto__` resolve to truthy
non-month values; everything else is `null`. -/
def jsMonthMapGet (key : String) : Option MonthValue :=
  match monthPairs.lookup key with
  | some n => some (MonthValue.num n)
  | none =>
    if key = "constructor" ∨ key = "__proto__" then some (MonthValue.protoMember key)
    else none

/-- `monthMap[String(monthInput).toLowerCase().trim()] || null`. -/
def monthNameLookup (s : String) : Option MonthValue := jsMonthMapGet (jsTrim (jsToLower s))

/-- The leading digit run of `cs` as a number, `none` when `cs` does not start
with a digit. -/
def leadingDigits (cs : List Char) : Option Nat :=
  match cs.takeWhile Char.isDigit with
  | [] => none
  | ds => some (digitsToNat ds)

/-- JavaScript `parseInt(s, 10)`: skip leading whitespace, read an optional
sign, then the longest digit run; `none` models `NaN`. -/
def jsParseInt (s : String) : Option Int :=
  match s.toList.dropWhile Char.isWhitespace with
  | '-' :: rest => (leadingDigits rest).map (fun n => -(n : Int))
  | '+' :: rest => (leadingDigits rest).map (fun n => (n : Int))
  | cs => (leadingDigits cs).map (fun n => (n : Int))

/-- `parseMonth(monthInput)` from `src/inst.js`: `parseInt` first, accepted
verbatim when the value is 1..12, otherwise the bracket lookup on the
month-name object (including its prototype chain); `none` models the `null`
return. -/
def parseMonth (s : String) : Option MonthValue :=
  match jsParseInt s with
  | some n => if 1 ≤ n ∧ n ≤ 12 then some (MonthValue.num n.toNat) else monthNameLookup s
  | none => monthNameLookup s

/-- `monthCoercion`: wraps `parseMonth`, throwing `Invalid month: '<s>'.` when
it returns `null`; any truthy lookup result — a month number or an inherited
`Object.prototype` member — passes through without error. -/
def monthCoercion (s : String) : Except String MonthValue :=
  match parseMonth s with
  | some v => Except.ok v
  | none => Except.error (invalidMonthMsg s)

/-- Definition following the words of claim C9 (not the source), for comparison
with `parseMonth`: a numeric string whose value is 1..12 is taken verbatim;
anything else is resolved by case-insensitive lookup against full month names
and 3-letter abbreviations; every remaining input is an error naming the
offending value. -/
def monthOfClaim (s : String) : Except String Nat :=
  if s.toList ≠ [] ∧ s.toList.all Char.isDigit ∧
      1 ≤ digitsToNat s.toList ∧ digitsToNat s.toList ≤ 12 then
    Except.ok (digitsToNat s.toList)
  else match monthPairs.lookup (jsToLower s) with
    | some n => Except.ok n
    | none => Except.error (invalidMonthMsg s)

/-- `maxId`: `Math.max(...instructions.map(i => i.id))` over a store. -/
def maxId (l : List Record) : Nat := (l.map (fun r => r.id)).foldr max 0

/-- The id chosen by the `add` handler:
`instructions.length > 0 ? Math.max(...instructions.map(i => i.id)) + 1 : 1`. -/
def nextId (l : List Record) : Nat :=
  match l with
  | [] => 1
  | _ => maxId l + 1

/-- The record object the `add` handler pushes. -/
def newRecord (source text priority : String) (deadline : Option DateTime)
    (now : DateTime) (l : List Record) : Record :=
  { id := nextId l, source := source, text := text, priority := priority,
    status := "pending", added := now, deadline := deadline,
    isDeleted := false, deletedAt := none }

/-- Outcome of the `add` handler. -/
inductive AddResult where
  | invalidDeadline
  | added (id : Nat)
deriving DecidableEq, Repr

/-- The `add` handler: push an undo snapshot and clear redo first (as the code
does), compute the new id, then validate the deadline via the external parser
`chronoParse` (chrono-node); on an unparseable supplied deadline it reports
the failure and returns without touching the store; otherwise it appends the
new record. -/
def addCmd (chronoParse : String → Option DateTime) (source instruction priority : String)
    (deadlineArg : Option String) (now : DateTime) (s : AppState) : AddResult × AppState :=
  let s1 := clearRedoStack (pushToUndoStack "add" s)
  let deadlineDate : Option DateTime :=
    if optStrTruthy deadlineArg then chronoParse (deadlineArg.getD "") else none
  if optStrTruthy deadlineArg ∧ deadlineDate = none then
    (AddResult.invalidDeadline, s1)
  else
    (AddResult.added (nextId s1.store),
      { s1 with store := s1.store ++ [newRecord source instruction priority deadlineDate now s1.store] })

/-- Outcome of the `mark` handler. -/
inductive MarkResult where
  | notFound
  | alreadyDeleted
  | noOp
  | applied
deriving DecidableEq, Repr

/-- The store-level part of the `mark` handler: `findIndex(inst.id === id)`,
then the deleted check, the no-op check, and the status assignment on the
first record whose id matches. -/
def markStore (id : Nat) (status : String) : List Record → MarkResult × List Record
  | [] => (MarkResult.notFound, [])
  | r :: rs =>
    if r.id = id then
      if r.isDeleted then (MarkResult.alreadyDeleted, r :: rs)
      else if r.status = status then (MarkResult.noOp, r :: rs)
      else (MarkResult.applied, { r with status := status } :: rs)
    else
      let p := markStore id status rs
      (p.1, r :: p.2)

/-- The `mark` handler: on the applied path it snapshots the pre-mutation
store onto undo, clears redo and saves; every other path returns before any
write. -/
def markCmd (id : Nat) (status : String) (s : AppState) : MarkResult × AppState :=
  let p := markStore id status s.store
  if p.1 = MarkResult.applied then
    (p.1, { store := p.2,
            undoStack := boundedPush s.undoStack { command := "mark", data := s.store },
            redoStack := [] })
  else (p.1, s)

/-- Outcome of the `delete` handler.  The code has a single not-found message
(`This ID does not exist or is already deleted`) covering both an absent id
and an already-soft-deleted record. -/
inductive DeleteResult where
  | noActive
  | cancelled
  | applied
deriving DecidableEq, Repr

/-- The store-level part of the `delete` handler:
`findIndex(inst.id === id && !inst.isDeleted)`, then the soft-delete flags on
the found record.  The `Bool` is whether an active record was found. -/
def deleteStore (id : Nat) (t : DateTime) : List Record → Bool × List Record
  | [] => (false, [])
  | r :: rs =>
    if r.id = id ∧ r.isDeleted = false then
      (true, { r with isDeleted := true, deletedAt := some t } :: rs)
    else
      let p := deleteStore id t rs
      (p.1, r :: p.2)

/-- The `delete` handler: find an active record first, then ask for
confirmation; only the confirmed path pushes the undo snapshot, clears redo
and saves. -/
def deleteCmd (confirm : Bool) (id : Nat) (t : DateTime) (s : AppState) : DeleteResult × AppState :=
  let p := deleteStore id t s.store
  if p.1 = false then (DeleteResult.noActive, s)
  else if confirm then
    (DeleteResult.applied,
      { store := p.2,
        undoStack := boundedPush s.undoStack { command := "delete", data := s.store },
        redoStack := [] })
  else (DeleteResult.cancelled, s)

/-- Outcome of the `recover` handler.  The code has a single message
(`This ID does not exist or is not deleted`) covering both an absent id and a
record that is not soft-deleted. -/
inductive RecoverResult where
  | notFoundOrNotDeleted
  | applied
deriving DecidableEq, Repr

/-- The store-level part of the `recover` handler: `findIndex(inst.id === id)`;
the found record must be soft-deleted, in which case the flags are cleared. -/
def recoverStore (id : Nat) : List Record → RecoverResult × List Record
  | [] => (RecoverResult.notFoundOrNotDeleted, [])
  | r :: rs =>
    if r.id = id then
      if r.isDeleted then
        (RecoverResult.applied, { r with isDeleted := false, deletedAt := none } :: rs)
      else (RecoverResult.notFoundOrNotDeleted, r :: rs)
    else
      let p := recoverStore id rs
      (p.1, r :: p.2)

/-- The `recover` handler: only the applied path pushes the undo snapshot,
clears redo and saves. -/
def recoverCmd (id : Nat) (s : AppState) : RecoverResult × AppState :=
  let p := recoverStore id s.store
  if p.1 = RecoverResult.applied then
    (p.1, { store := p.2,
            undoStack := boundedPush s.undoStack { command := "recover", data := s.store },
            redoStack := [] })
  else (p.1, s)

/-- Outcome of the `edit` handler. -/
inductive EditResult where
  | notFound
  | alreadyDeleted
  | invalidDeadline
  | noChanges
  | applied
deriving DecidableEq, Repr

/-- The field-update block of the `edit` handler, applied to the record found
by id: each truthy option overwrites its field and sets the `changed` flag
(in source order); a truthy but unparseable deadline aborts the whole edit
(`none`), before anything is persisted. -/
def applyEdit (parse : String → Option DateTime) (src txt pr st dl : Option String)
    (r : Record) : Option (Record × Bool) :=
  let r1 := if optStrTruthy src then { r with source := src.getD "" } else r
  let c1 := optStrTruthy src
  let r2 := if optStrTruthy txt then { r1 with text := txt.getD "" } else r1
  let c2 := c1 || optStrTruthy txt
  let r3 := if optStrTruthy pr then { r2 with priority := pr.getD "" } else r2
  let c3 := c2 || optStrTruthy pr
  let r4 := if optStrTruthy st then { r3 with status := st.getD "" } else r3
  let c4 := c3 || optStrTruthy st
  if optStrTruthy dl then
    match parse (dl.getD "") with
    | none => none
    | some d => some ({ r4 with deadline := some d }, true)
  else some (r4, c4)

/-- The store-level part of the `edit` handler: `findIndex(inst.id === id)`,
the deleted check, then `applyEdit` on the found record; the store is only
changed when the `changed` flag is set. -/
def editStore (parse : String → Option DateTime) (id : Nat) (src txt pr st dl : Option String) :
    List Record → EditResult × List Record
  | [] => (EditResult.notFound, [])
  | r :: rs =>
    if r.id = id then
      if r.isDeleted then (EditResult.alreadyDeleted, r :: rs)
      else
        match applyEdit parse src txt pr st dl r with
        | none => (EditResult.invalidDeadline, r :: rs)
        | some (r', true) => (EditResult.applied, r' :: rs)
        | some (_, false) => (EditResult.noChanges, r :: rs)
    else
      let p := editStore parse id src txt pr st dl rs
      (p.1, r :: p.2)

/-- The `edit` handler: only the applied (`changed`) path pushes the undo
snapshot of the pre-edit store, clears redo and saves. -/
def editCmd (parse : String → Option DateTime) (id : Nat) (src txt pr st dl : Option String)
    (s : AppState) : EditResult × AppState :=
  let p := editStore parse id src txt pr st dl s.store
  if p.1 = EditResult.applied then
    (p.1, { store := p.2,
            undoStack := boundedPush s.undoStack { command := "edit", data := s.store },
            redoStack := [] })
  else (p.1, s)

/-- A store operation for the id-monotonicity property: a `create` (the `add`
handler's store effect) or an interleaved soft deletion. -/
inductive StoreOp where
  | create (source text priority : String) (deadline : Option DateTime) (added : DateTime)
  | softDelete (id : Nat) (deletedAt : DateTime)
deriving Repr

/-- Run a sequence of store operations, collecting the ids assigned by the
`create` operations in order. -/
def runOps : List StoreOp → List Record → List Record × List Nat
  | [], l => (l, [])
  | StoreOp.create src txt pr dl ad :: ops, l =>
    let r := newRecord src txt pr dl ad l
    let p := runOps ops (l ++ [r])
    (p.1, r.id :: p.2)
  | StoreOp.softDelete id t :: ops, l => runOps ops (deleteStore id t l).2

/-- A sample timestamp (2025-08-09 was a Saturday). -/
def sampleDate : DateTime := { year := 2025, month := 8, day := 9, weekday := "Saturday" }

/-- A sample active record. -/
def sampleRecord : Record :=
  { id := 1, source := "Personal", text := "Buy milk", priority := "normal",
    status := "pending", added := sampleDate, deadline := none,
    isDeleted := false, deletedAt := none }

/-- A sample soft-deleted record. -/
def sampleDeleted : Record :=
  { sampleRecord with isDeleted := true, deletedAt := some sampleDate }

/-- The predicate of claim C6: the timestamp falls in days 8..14 of August. -/
def inAugustDays8to14 (t : DateTime) : Bool :=
  t.month == 8 && (decide (8 ≤ t.day) && decide (t.day ≤ 14))

end Inst

namespace Inst

/-! ## Helper lemmas -/

theorem boundedPush_getLast? (l : List α) (a : α) : (boundedPush l a).getLast? = some a := by
  unfold boundedPush
  simp only [MAX_UNDO_REDO_STATES]
  split
  · rename_i hlen
    match l with
    | [] => simp at hlen
    | x :: xs => simp [List.getLast?_concat]
  · simp [List.getLast?_concat]

theorem applyIf_sublist (c : Bool) (p : Record → Bool) (l : List Record) :
    (applyIf c p l).Sublist l := by
  unfold applyIf
  split
  · exact List.filter_sublist l
  · exact List.Sublist.refl l

/-! ## C1 -/

/-- C1: `undo` pops the top Undo entry, pushes the current (pre-undo) store
snapshot tagged with the same command name onto Redo, and replaces the store
with the popped snapshot; `redo` is symmetric; hence `undo` followed by `redo`
restores the store to the value it held immediately before the undo — the
state produced by the undone mutation. -/
theorem C1_undo_redo (s : AppState) (e : Entry) (h : s.undoStack.getLast? = some e) :
    popFromUndoStack s =
      (some e.command,
        { store := e.data,
          undoStack := s.undoStack.dropLast,
          redoStack := boundedPush s.redoStack { command := e.command, data := s.store } }) ∧
    (∀ (s2 : AppState) (e2 : Entry), s2.redoStack.getLast? = some e2 →
      popFromRedoStack s2 =
        (some e2.command,
          { store := e2.data,
            undoStack := boundedPush s2.undoStack { command := e2.command, data := s2.store },
            redoStack := s2.redoStack.dropLast })) ∧
    (popFromRedoStack (popFromUndoStack s).2).2.store = s.store := by
  refine ⟨?_, ?_, ?_⟩
  · simp [popFromUndoStack, h, pushToRedoStack]
  · intro s2 e2 h2
    simp [popFromRedoStack, h2, pushToUndoStack]
  · simp [popFromUndoStack, h, pushToRedoStack, popFromRedoStack, boundedPush_getLast?]

/-- Witness for C1 at a concrete state: one record was added to an empty
store; undo empties the store, redo restores it. -/
theorem C1_undo_redo_witness :
    (popFromUndoStack
        { store := [sampleRecord],
          undoStack := [{ command := "add", data := [] }], redoStack := [] }).2.store = [] ∧
    (popFromRedoStack
      (popFromUndoStack
        { store := [sampleRecord],
          undoStack := [{ command := "add", data := [] }], redoStack := [] }).2).2.store
      = [sampleRecord] := by
  have h := C1_undo_redo
    { store := [sampleRecord], undoStack := [{ command := "add", data := [] }], redoStack := [] }
    { command := "add", data := [] } (by decide)
  exact ⟨by rw [h.1], h.2.2⟩

/-! ## C2 -/

/-- C2: evaluation of the `add` handler at a failing input.  With an
unparseable deadline the handler reports the validation failure and leaves the
record store unchanged, but it has already pushed an `add` snapshot onto the
Undo stack and cleared the Redo stack before validating, so the two history
stacks are mutated. -/
theorem C2_add_invalid_deadline_mutates_history :
    addCmd (fun _ => none) "Personal" "Buy milk" "normal" (some "next blursday") sampleDate
      { store := [], undoStack := [],
        redoStack := [{ command := "delete", data := [sampleRecord] }] }
    = (AddResult.invalidDeadline,
       { store := [], undoStack := [{ command := "add", data := [] }], redoStack := [] }) := by
  decide

/-! ## C7 -/

/-- C7: with empty criteria the filter returns exactly the non-deleted records
in their original order, and for every criteria bag the output is a sublist of
the input (order preserved; the embedding is a pure function, matching the
source, which copies the array and only ever applies `Array.prototype.filter`). -/
theorem C7_empty_filter :
    (∀ l : List Record, filterInstructions l {} = l.filter (fun r => !r.isDeleted)) ∧
    (∀ (l : List Record) (f : Filters), (filterInstructions l f).Sublist l) := by
  constructor
  · intro l
    rfl
  · intro l f
    unfold filterInstructions
    exact (applyIf_sublist _ _ _).trans ((applyIf_sublist _ _ _).trans
      ((applyIf_sublist _ _ _).trans ((applyIf_sublist _ _ _).trans
        ((applyIf_sublist _ _ _).trans (applyIf_sublist _ _ _)))))

end Inst

namespace Inst

/-! ## C3 helpers -/

theorem maxId_cons (x : Record) (xs : List Record) : maxId (x :: xs) = max x.id (maxId xs) := rfl

theorem id_le_maxId {r : Record} {l : List Record} (h : r ∈ l) : r.id ≤ maxId l := by
  induction l with
  | nil => cases h
  | cons x xs ih =>
    rcases List.mem_cons.1 h with rfl | hx
    · rw [maxId_cons]; exact Nat.le_max_left _ _
    · rw [maxId_cons]; exact Nat.le_trans (ih hx) (Nat.le_max_right _ _)

theorem id_lt_nextId {r : Record} {l : List Record} (h : r ∈ l) : r.id < nextId l := by
  cases l with
  | nil => cases h
  | cons x xs =>
    have hle := id_le_maxId h
    show r.id < maxId (x :: xs) + 1
    omega

theorem deleteStore_map_id (id : Nat) (t : DateTime) (l : List Record) :
    ((deleteStore id t l).2).map (fun r => r.id) = l.map (fun r => r.id) := by
  induction l with
  | nil => rfl
  | cons x xs ih =>
    unfold deleteStore
    split
    · simp
    · simpa using ih

theorem runOps_assigned_gt (ops : List StoreOp) :
    ∀ (l : List Record) (m : Nat), m ∈ (runOps ops l).2 → ∀ r ∈ l, r.id < m := by
  induction ops with
  | nil => intro l m hm; simp [runOps] at hm
  | cons op ops ih =>
    cases op with
    | create src txt pr dl ad =>
      intro l m hm r hr
      simp only [runOps, List.mem_cons] at hm
      rcases hm with rfl | hm
      · exact id_lt_nextId hr
      · exact ih _ m hm r (List.mem_append_left _ hr)
    | softDelete did t =>
      intro l m hm r hr
      simp only [runOps] at hm
      have hid : r.id ∈ ((deleteStore did t l).2).map (fun x => x.id) := by
        rw [deleteStore_map_id]
        exact List.mem_map_of_mem _ hr
      rcases List.mem_map.1 hid with ⟨y, hy, hyid⟩
      have := ih _ m hm y hy
      omega

theorem runOps_pairwise (ops : List StoreOp) :
    ∀ l : List Record, ((runOps ops l).2).Pairwise (· < ·) := by
  induction ops with
  | nil => intro l; simp [runOps]
  | cons op ops ih =>
    cases op with
    | create src txt pr dl ad =>
      intro l
      simp only [runOps, List.pairwise_cons]
      refine ⟨?_, ih _⟩
      intro m hm
      exact runOps_assigned_gt ops _ m hm (newRecord src txt pr dl ad l)
        (List.mem_append_right _ (List.mem_singleton.2 rfl))
    | softDelete did t =>
      intro l
      simp only [runOps]
      exact ih _

/-! ## C3 -/

/-- C3: the id assigned to a new record is `max(existing ids) + 1`, or `1` for
an empty store (this is what the `add` handler computes), and over any
sequence of `create` operations with soft deletions interleaved, starting from
any store, the assigned ids are strictly increasing and never repeat. -/
theorem C3_monotonic_ids :
    (∀ l : List Record, l ≠ [] → nextId l = maxId l + 1) ∧
    nextId ([] : List Record) = 1 ∧
    (∀ (parse : String → Option DateTime) (src txt pr : String) (now : DateTime) (s : AppState),
      (addCmd parse src txt pr none now s).1 = AddResult.added (nextId s.store)) ∧
    (∀ (ops : List StoreOp) (l : List Record), ((runOps ops l).2).Pairwise (· < ·)) ∧
    (∀ (ops : List StoreOp) (l : List Record), ((runOps ops l).2).Nodup) := by
  refine ⟨?_, rfl, ?_, ?_, ?_⟩
  · intro l hl
    cases l with
    | nil => exact absurd rfl hl
    | cons x xs => rfl
  · intro parse src txt pr now s
    rfl
  · intro ops l
    exact runOps_pairwise ops l
  · intro ops l
    exact (runOps_pairwise ops l).imp Nat.ne_of_lt

/-- Witness for C3 at concrete inputs: a nonempty store, and a concrete
create/soft-delete/create sequence whose assigned ids are strictly increasing. -/
theorem C3_monotonic_ids_witness :
    nextId [sampleRecord] = maxId [sampleRecord] + 1 ∧
    ((runOps [StoreOp.create "a" "b" "normal" none sampleDate,
              StoreOp.softDelete 1 sampleDate,
              StoreOp.create "c" "d" "low" none sampleDate] []).2).Pairwise (· < ·) :=
  ⟨C3_monotonic_ids.1 [sampleRecord] (by decide),
   C3_monotonic_ids.2.2.2.1
     [StoreOp.create "a" "b" "normal" none sampleDate,
      StoreOp.softDelete 1 sampleDate,
      StoreOp.create "c" "d" "low" none sampleDate] []⟩

end Inst

namespace Inst

/-! ## C4 helpers -/

theorem drop_append_general (l r : List α) (n : Nat) :
    (l ++ r).drop n = l.drop n ++ r.drop (n - l.length) := by
  rcases le_or_lt n l.length with h | h
  · rw [List.drop_append_of_le_length h]
    have h0 : n - l.length = 0 := by omega
    rw [h0]
    rfl
  · have hl : l.drop n = [] := List.drop_eq_nil_of_le (by omega)
    rw [hl, List.nil_append]
    have h2 : n = l.length + (n - l.length) := by omega
    conv_lhs => rw [h2]
    rw [List.drop_append]

theorem lastN_lastN_append (n : Nat) (l r : List α) :
    lastN n (lastN n l ++ r) = lastN n (l ++ r) := by
  unfold lastN
  rw [drop_append_general, drop_append_general, List.drop_drop]
  simp only [List.length_append, List.length_drop]
  congr 1
  · congr 1
    omega
  · congr 1
    omega

theorem boundedPush_length_le (l : List α) (e : α) (h : l.length ≤ 10) :
    (boundedPush l e).length ≤ 10 := by
  unfold boundedPush
  simp only [MAX_UNDO_REDO_STATES]
  split
  · simp only [List.length_drop, List.length_append, List.length_singleton]
    omega
  · rename_i h1
    simp only [List.length_append, List.length_singleton] at h1 ⊢
    omega

theorem boundedPush_eq_lastN (l : List α) (a : α) (h : l.length ≤ 10) :
    boundedPush l a = lastN 10 (l ++ [a]) := by
  unfold boundedPush lastN
  simp only [MAX_UNDO_REDO_STATES, List.length_append, List.length_singleton]
  split
  · rename_i h1
    have h2 : l.length + 1 - 10 = 1 := by omega
    rw [h2]
  · rename_i h1
    have h2 : l.length + 1 - 10 = 0 := by omega
    rw [h2]
    rfl

theorem foldl_boundedPush (es : List α) :
    ∀ st : List α, st.length ≤ 10 → es.foldl boundedPush st = lastN 10 (st ++ es) := by
  induction es with
  | nil =>
    intro st h
    have h2 : st.length - 10 = 0 := by omega
    simp [lastN, h2]
  | cons e es ih =>
    intro st h
    rw [List.foldl_cons, ih _ (boundedPush_length_le st e h), boundedPush_eq_lastN st e h,
        lastN_lastN_append]
    congr 1
    simp

theorem lastN_append_left_of_le (st es : List α) (h : 10 ≤ es.length) :
    lastN 10 (st ++ es) = lastN 10 es := by
  unfold lastN
  rw [drop_append_general,
      List.drop_eq_nil_of_le (by simp only [List.length_append]; omega), List.nil_append]
  congr 1
  simp only [List.length_append]
  omega

/-! ## C4 -/

/-- C4: a bounded push keeps the stack within 10 entries, a push onto a full
stack evicts exactly the oldest entry, the pushed (most recent) entry is never
the one dropped, and folding more than 10 pushes over any stack that starts
within bounds leaves exactly the 10 most recent entries in order; the Undo and
Redo stacks push through exactly this operation. -/
theorem C4_bounded_history :
    (∀ (st : List Entry) (e : Entry), st.length ≤ 10 → (boundedPush st e).length ≤ 10) ∧
    (∀ (st : List Entry) (e : Entry), st.length = 10 → boundedPush st e = st.drop 1 ++ [e]) ∧
    (∀ (st : List Entry) (e : Entry), (boundedPush st e).getLast? = some e) ∧
    (∀ (st es : List Entry), st.length ≤ 10 → 10 < es.length →
      es.foldl boundedPush st = lastN 10 es) ∧
    (∀ (name : String) (s : AppState),
      (pushToUndoStack name s).undoStack
          = boundedPush s.undoStack { command := name, data := s.store } ∧
      (pushToRedoStack name s).redoStack
          = boundedPush s.redoStack { command := name, data := s.store }) := by
  refine ⟨boundedPush_length_le, ?_, boundedPush_getLast?, ?_, ?_⟩
  · intro st e h
    unfold boundedPush
    simp only [MAX_UNDO_REDO_STATES]
    rw [if_pos (by simp only [List.length_append, List.length_singleton]; omega)]
    cases st with
    | nil => simp at h
    | cons x xs => rfl
  · intro st es h1 h2
    rw [foldl_boundedPush es st h1, lastN_append_left_of_le st es (by omega)]
  · intro name s
    exact ⟨rfl, rfl⟩

/-- Witness for C4: pushing 11 entries onto an empty stack keeps exactly the
10 most recent, and a push onto a full stack of 10 drops only the oldest. -/
theorem C4_bounded_history_witness :
    ([{ command := "c1", data := [] }, { command := "c2", data := [] },
      { command := "c3", data := [] }, { command := "c4", data := [] },
      { command := "c5", data := [] }, { command := "c6", data := [] },
      { command := "c7", data := [] }, { command := "c8", data := [] },
      { command := "c9", data := [] }, { command := "c10", data := [] },
      { command := "c11", data := [] }] : List Entry).foldl boundedPush []
      = lastN 10
        [{ command := "c1", data := [] }, { command := "c2", data := [] },
         { command := "c3", data := [] }, { command := "c4", data := [] },
         { command := "c5", data := [] }, { command := "c6", data := [] },
         { command := "c7", data := [] }, { command := "c8", data := [] },
         { command := "c9", data := [] }, { command := "c10", data := [] },
         { command := "c11", data := [] }] :=
  C4_bounded_history.2.2.2.1 [] _ (by decide) (by decide)

end Inst

namespace Inst

/-! ## C5 helpers -/

theorem markStore_fst (id : Nat) (status : String) (l : List Record) :
    (markStore id status l).1 =
      (match l.find? (fun r => r.id == id) with
       | none => MarkResult.notFound
       | some r =>
         if r.isDeleted then MarkResult.alreadyDeleted
         else if r.status = status then MarkResult.noOp
         else MarkResult.applied) := by
  induction l with
  | nil => rfl
  | cons x xs ih =>
    by_cases hx : x.id = id
    · rw [List.find?_cons_of_pos _ (by simpa using hx)]
      by_cases hd : x.isDeleted <;> by_cases hs : x.status = status <;>
        simp [markStore, hx, hd, hs]
    · rw [List.find?_cons_of_neg _ (by simpa using hx)]
      simpa [markStore, hx] using ih

theorem deleteStore_fst (id : Nat) (t : DateTime) (l : List Record) :
    (deleteStore id t l).1 = (l.find? (fun r => r.id == id && !r.isDeleted)).isSome := by
  induction l with
  | nil => rfl
  | cons x xs ih =>
    by_cases hx : x.id = id ∧ x.isDeleted = false
    · rw [List.find?_cons_of_pos _ (by simp [hx.1, hx.2])]
      simp [deleteStore, hx]
    · rw [List.find?_cons_of_neg _ (by simp; intro h1; simp [h1] at hx; simp [hx])]
      simpa [deleteStore, hx] using ih

theorem recoverStore_fst (id : Nat) (l : List Record) :
    (recoverStore id l).1 =
      (match l.find? (fun r => r.id == id) with
       | none => RecoverResult.notFoundOrNotDeleted
       | some r =>
         if r.isDeleted then RecoverResult.applied
         else RecoverResult.notFoundOrNotDeleted) := by
  induction l with
  | nil => rfl
  | cons x xs ih =>
    by_cases hx : x.id = id
    · rw [List.find?_cons_of_pos _ (by simpa using hx)]
      by_cases hd : x.isDeleted <;> simp [recoverStore, hx, hd]
    · rw [List.find?_cons_of_neg _ (by simpa using hx)]
      simpa [recoverStore, hx] using ih

theorem editStore_fst (parse : String → Option DateTime) (id : Nat)
    (src txt pr st dl : Option String) (l : List Record) :
    (editStore parse id src txt pr st dl l).1 =
      (match l.find? (fun r => r.id == id) with
       | none => EditResult.notFound
       | some r =>
         if r.isDeleted then EditResult.alreadyDeleted
         else
           match applyEdit parse src txt pr st dl r with
           | none => EditResult.invalidDeadline
           | some (_, true) => EditResult.applied
           | some (_, false) => EditResult.noChanges) := by
  induction l with
  | nil => rfl
  | cons x xs ih =>
    by_cases hx : x.id = id
    · rw [List.find?_cons_of_pos _ (by simpa using hx)]
      by_cases hd : x.isDeleted
      · simp [editStore, hx, hd]
      · rcases hpe : applyEdit parse src txt pr st dl x with _ | ⟨r2, c⟩
        · simp [editStore, hx, hd, hpe]
        · cases c <;> simp [editStore, hx, hd, hpe]
    · rw [List.find?_cons_of_neg _ (by simpa using hx)]
      simpa [editStore, hx] using ih

theorem markCmd_nonapplied (id : Nat) (status : String) (s : AppState)
    (h : (markCmd id status s).1 ≠ MarkResult.applied) : (markCmd id status s).2 = s := by
  by_cases hc : (markStore id status s.store).1 = MarkResult.applied
  · exact absurd (by simp [markCmd, hc]) h
  · simp [markCmd, hc]

theorem editCmd_nonapplied (parse : String → Option DateTime) (id : Nat)
    (src txt pr st dl : Option String) (s : AppState)
    (h : (editCmd parse id src txt pr st dl s).1 ≠ EditResult.applied) :
    (editCmd parse id src txt pr st dl s).2 = s := by
  by_cases hc : (editStore parse id src txt pr st dl s.store).1 = EditResult.applied
  · exact absurd (by simp [editCmd, hc]) h
  · simp [editCmd, hc]

theorem deleteCmd_nonapplied (confirm : Bool) (id : Nat) (t : DateTime) (s : AppState)
    (h : (deleteCmd confirm id t s).1 ≠ DeleteResult.applied) :
    (deleteCmd confirm id t s).2 = s := by
  by_cases hf : (deleteStore id t s.store).1 = false
  · simp [deleteCmd, hf]
  · cases hcf : confirm
    · simp [deleteCmd, hf, hcf]
    · exact absurd (by simp [deleteCmd, hf, hcf]) h

theorem recoverCmd_nonapplied (id : Nat) (s : AppState)
    (h : (recoverCmd id s).1 ≠ RecoverResult.applied) : (recoverCmd id s).2 = s := by
  by_cases hc : (recoverStore id s.store).1 = RecoverResult.applied
  · exact absurd (by simp [recoverCmd, hc]) h
  · simp [recoverCmd, hc]

/-! ## C5 -/

/-- C5 counterexample: `delete` on a store whose only record with the
requested id is already soft-deleted produces exactly the same outcome as
`delete` on a store where the id is absent — the single merged
`noActive` result (the source prints one message,
`This ID does not exist or is already deleted`, for both situations), not a
distinct AlreadyDeleted; the store is left unchanged. -/
theorem C5_counterexample :
    (deleteCmd true 1 sampleDate
        { store := [sampleDeleted], undoStack := [], redoStack := [] }).1
      = DeleteResult.noActive ∧
    (deleteCmd true 1 sampleDate { store := [], undoStack := [], redoStack := [] }).1
      = DeleteResult.noActive ∧
    (deleteCmd true 1 sampleDate
        { store := [sampleDeleted], undoStack := [], redoStack := [] }).2
      = { store := [sampleDeleted], undoStack := [], redoStack := [] } := by
  decide

theorem addCmd_invalidDeadline (parse : String → Option DateTime) (src txt pr : String)
    (dlArg : Option String) (now : DateTime) (s : AppState)
    (h : (addCmd parse src txt pr dlArg now s).1 = AddResult.invalidDeadline) :
    (addCmd parse src txt pr dlArg now s).2.store = s.store ∧
    (addCmd parse src txt pr dlArg now s).2.undoStack
      = boundedPush s.undoStack { command := "add", data := s.store } ∧
    (addCmd parse src txt pr dlArg now s).2.redoStack = [] := by
  cases hd : optStrTruthy dlArg
  · exfalso
    simp [addCmd, hd] at h
  · cases hp : parse (dlArg.getD "")
    · refine ⟨?_, ?_, ?_⟩ <;> simp [addCmd, hd, hp, clearRedoStack, pushToUndoStack]
    · exfalso
      simp [addCmd, hd, hp] at h

/-- C5 amended: `mark` (setStatus), `edit` (update), `delete` (softDelete) and
`recover` validate their precondition before mutating and leave the whole
state (store and both history stacks) unchanged on any non-`applied` result;
`create` leaves the store unchanged when its deadline validation fails, but by
that point it has already pushed an `add` snapshot of the unchanged store onto
Undo and cleared Redo (the divergence recorded at C2); `mark` and `edit`
distinguish NotFound, AlreadyDeleted, NoOp/NoChanges and Applied on the first
record whose id matches; but `delete` and `recover` each collapse "id absent"
and "record in the wrong delete state" into one merged result, so `delete` of
an already-soft-deleted record reports the same outcome as an absent id rather
than a distinct AlreadyDeleted. -/
theorem C5_typed_results :
    (∀ (id : Nat) (status : String) (s : AppState),
      (markCmd id status s).1 ≠ MarkResult.applied → (markCmd id status s).2 = s) ∧
    (∀ (parse : String → Option DateTime) (id : Nat) (src txt pr st dl : Option String)
        (s : AppState),
      (editCmd parse id src txt pr st dl s).1 ≠ EditResult.applied →
      (editCmd parse id src txt pr st dl s).2 = s) ∧
    (∀ (confirm : Bool) (id : Nat) (t : DateTime) (s : AppState),
      (deleteCmd confirm id t s).1 ≠ DeleteResult.applied → (deleteCmd confirm id t s).2 = s) ∧
    (∀ (id : Nat) (s : AppState),
      (recoverCmd id s).1 ≠ RecoverResult.applied → (recoverCmd id s).2 = s) ∧
    (∀ (id : Nat) (status : String) (l : List Record),
      (markStore id status l).1 =
        (match l.find? (fun r => r.id == id) with
         | none => MarkResult.notFound
         | some r =>
           if r.isDeleted then MarkResult.alreadyDeleted
           else if r.status = status then MarkResult.noOp
           else MarkResult.applied)) ∧
    (∀ (id : Nat) (t : DateTime) (l : List Record),
      (deleteStore id t l).1 = (l.find? (fun r => r.id == id && !r.isDeleted)).isSome) ∧
    (∀ (id : Nat) (l : List Record),
      (recoverStore id l).1 =
        (match l.find? (fun r => r.id == id) with
         | none => RecoverResult.notFoundOrNotDeleted
         | some r =>
           if r.isDeleted then RecoverResult.applied
           else RecoverResult.notFoundOrNotDeleted)) ∧
    (∀ (confirm : Bool) (id : Nat) (t : DateTime) (s : AppState),
      (∀ r ∈ s.store, r.id = id → r.isDeleted = true) →
      (deleteCmd confirm id t s).1 = DeleteResult.noActive) ∧
    (∀ (parse : String → Option DateTime) (src txt pr : String) (dlArg : Option String)
        (now : DateTime) (s : AppState),
      (addCmd parse src txt pr dlArg now s).1 = AddResult.invalidDeadline →
      ((addCmd parse src txt pr dlArg now s).2.store = s.store ∧
       (addCmd parse src txt pr dlArg now s).2.undoStack
         = boundedPush s.undoStack { command := "add", data := s.store } ∧
       (addCmd parse src txt pr dlArg now s).2.redoStack = [])) := by
  refine ⟨markCmd_nonapplied, editCmd_nonapplied, deleteCmd_nonapplied, recoverCmd_nonapplied,
    markStore_fst, deleteStore_fst, recoverStore_fst, ?_, addCmd_invalidDeadline⟩
  intro confirm id t s h
  have hnone : s.store.find? (fun r => r.id == id && !r.isDeleted) = none := by
    rw [List.find?_eq_none]
    intro r hr
    by_cases hid : r.id = id
    · simp [hid, h r hr hid]
    · simp [hid]
  have hf : (deleteStore id t s.store).1 = false := by
    rw [deleteStore_fst, hnone]
    rfl
  simp [deleteCmd, hf]

/-- Witness for C5 at concrete inputs: a `mark` with an absent id leaves the
state unchanged, `delete` of an already-soft-deleted record reports the merged
`noActive` result, and a failed `add` keeps the store but pushes the Undo
snapshot. -/
theorem C5_typed_results_witness :
    (markCmd 5 "completed" { store := [sampleRecord], undoStack := [], redoStack := [] }).2
      = { store := [sampleRecord], undoStack := [], redoStack := [] } ∧
    (deleteCmd true 1 sampleDate
        { store := [sampleDeleted], undoStack := [], redoStack := [] }).1
      = DeleteResult.noActive ∧
    (addCmd (fun _ => none) "Personal" "Buy milk" "normal" (some "next blursday") sampleDate
        { store := [], undoStack := [], redoStack := [] }).2.undoStack
      = boundedPush [] { command := "add", data := [] } :=
  ⟨C5_typed_results.1 5 "completed" _ (by decide),
   C5_typed_results.2.2.2.2.2.2.2.1 true 1 sampleDate
     { store := [sampleDeleted], undoStack := [], redoStack := [] } (by decide),
   (C5_typed_results.2.2.2.2.2.2.2.2 (fun _ => none) "Personal" "Buy milk" "normal"
     (some "next blursday") sampleDate
     { store := [], undoStack := [], redoStack := [] } (by decide)).2.1⟩

end Inst

namespace Inst

/-! ## C6 helpers -/

theorem dateMatchB_iff (f : Filters) (t : DateTime) :
    dateMatchB f t = true ↔
      (dateTruthy f = true →
        ∃ ymd, parseYmd (f.date.getD "") = some ymd ∧ (t.year, t.month, t.day) = ymd) := by
  cases hd : f.date with
  | none => simp [dateMatchB, dateTruthy, optStrTruthy, hd]
  | some ds =>
    by_cases he : ds = ""
    · simp [dateMatchB, dateTruthy, optStrTruthy, hd, he]
    · rcases hp : parseYmd ds with _ | ⟨y, m, d⟩
      · simp [dateMatchB, dateTruthy, optStrTruthy, hd, he, hp]
      · simp [dateMatchB, dateTruthy, optStrTruthy, hd, he, hp, Prod.ext_iff]
        constructor
        · rintro ⟨⟨h1, h2⟩, h3⟩
          exact ⟨y, m, d, ⟨rfl, rfl, rfl⟩, h1, h2, h3⟩
        · rintro ⟨a, b, c, ⟨ha, hb, hc⟩, h1, h2, h3⟩
          subst ha; subst hb; subst hc
          exact ⟨⟨h1, h2⟩, h3⟩

theorem dayMatchB_iff (f : Filters) (t : DateTime) :
    dayMatchB f t = true ↔
      (dayTruthy f = true → jsToLower t.weekday = jsToLower (f.day.getD "")) := by
  cases hd : f.day with
  | none => simp [dayMatchB, dayTruthy, optStrTruthy, hd]
  | some d =>
    by_cases he : d = "" <;> simp [dayMatchB, dayTruthy, optStrTruthy, hd, he]

theorem monthMatchB_iff (f : Filters) (t : DateTime) :
    monthMatchB f t = true ↔ (monthTruthy f = true → t.month = f.month.getD 0) := by
  cases hm : f.month with
  | none => simp [monthMatchB, monthTruthy, optNatTruthy, hm]
  | some m =>
    by_cases he : m = 0 <;> simp [monthMatchB, monthTruthy, optNatTruthy, hm, he]

theorem yearMatchB_iff (f : Filters) (t : DateTime) :
    yearMatchB f t = true ↔ (yearTruthy f = true → t.year = f.year.getD 0) := by
  cases hy : f.year with
  | none => simp [yearMatchB, yearTruthy, optNatTruthy, hy]
  | some y =>
    by_cases he : y = 0 <;> simp [yearMatchB, yearTruthy, optNatTruthy, hy, he]

theorem weekMatchB_iff (f : Filters) (t : DateTime) :
    weekMatchB f t = true ↔ (weekTruthy f = true → getWeekOfMonth t = f.week.getD 0) := by
  cases hw : f.week with
  | none => simp [weekMatchB, weekTruthy, optNatTruthy, hw]
  | some w =>
    by_cases he : w = 0 <;> simp [weekMatchB, weekTruthy, optNatTruthy, hw, he]

theorem filterInstructions_temporal (f : Filters) (l : List Record)
    (h1 : f.priority = none) (h2 : f.source = none) (h3 : f.status = none)
    (h4 : f.deadline = false) (h5 : f.all = true) (h6 : hasDateFilter f = true) :
    filterInstructions l f =
      l.filter (fun r => checkDate f r.added || checkDateOpt f r.deadline) := by
  simp [filterInstructions, applyIf, h1, h2, h3, h4, h5, h6, optStrTruthy]

theorem checkDate_aug (t : DateTime) :
    checkDate { month := some 8, week := some 2, all := true } t = inAugustDays8to14 t := by
  by_cases hm : t.month = 8 <;> by_cases h8 : 8 ≤ t.day <;> by_cases h14 : t.day ≤ 14
  all_goals
    simp only [checkDate, dateMatchB, dayMatchB, monthMatchB, yearMatchB, weekMatchB,
      inAugustDays8to14, getWeekOfMonth]
  · have hw : (t.day + 6) / 7 = 2 := by omega
    simp [hm, hw, h8, h14]
  · have hw : (t.day + 6) / 7 ≠ 2 := by omega
    simp [hm, hw, h14]
  · have hw : (t.day + 6) / 7 ≠ 2 := by omega
    simp [hm, hw, h8]
  · have hw : (t.day + 6) / 7 ≠ 2 := by omega
    simp [hm, hw, h8]
  all_goals
    have hb : (t.month == 8) = false := by simp [hm]
    rw [hb]
    simp

/-! ## C6 -/

/-- C6: with only temporal criteria active, a record passes the filter exactly
when its `added` or its `deadline` timestamp satisfies every specified
temporal criterion (conjunction across criteria on one timestamp, disjunction
across the two timestamps); with `week = 2` and `month = 8`
(week-of-month = `ceil(day/7)`), a timestamp qualifies exactly when it falls
in days 8..14 of August. -/
theorem C6_temporal_filter :
    (∀ (f : Filters) (l : List Record),
      f.priority = none → f.source = none → f.status = none → f.deadline = false →
      f.all = true → hasDateFilter f = true →
      filterInstructions l f =
        l.filter (fun r => checkDate f r.added || checkDateOpt f r.deadline)) ∧
    (∀ (f : Filters) (t : DateTime),
      checkDate f t = true ↔
        ((dateTruthy f = true →
           ∃ ymd, parseYmd (f.date.getD "") = some ymd ∧ (t.year, t.month, t.day) = ymd) ∧
         (dayTruthy f = true → jsToLower t.weekday = jsToLower (f.day.getD "")) ∧
         (monthTruthy f = true → t.month = f.month.getD 0) ∧
         (yearTruthy f = true → t.year = f.year.getD 0) ∧
         (weekTruthy f = true → getWeekOfMonth t = f.week.getD 0))) ∧
    (∀ l : List Record,
      filterInstructions l { month := some 8, week := some 2, all := true } =
        l.filter (fun r => inAugustDays8to14 r.added ||
          (match r.deadline with | none => false | some t => inAugustDays8to14 t))) := by
  refine ⟨filterInstructions_temporal, ?_, ?_⟩
  · intro f t
    unfold checkDate
    simp only [Bool.and_eq_true]
    rw [dateMatchB_iff, dayMatchB_iff, monthMatchB_iff, yearMatchB_iff, weekMatchB_iff]
    tauto
  · intro l
    rw [filterInstructions_temporal _ _ rfl rfl rfl rfl rfl (by decide)]
    apply List.filter_congr
    intro r _
    cases hdl : r.deadline <;> simp [checkDate_aug, checkDateOpt, hdl]

/-- Witness for C6: a record whose `added` falls on 2025-08-12 (day 12 of
August) passes the `week = 2, month = 8` filter. -/
theorem C6_temporal_filter_witness :
    filterInstructions [{ sampleRecord with added := { year := 2025, month := 8, day := 12, weekday := "Tuesday" } }]
        { month := some 8, week := some 2, all := true } =
      List.filter
        (fun r => inAugustDays8to14 r.added ||
          (match r.deadline with | none => false | some t => inAugustDays8to14 t))
        [{ sampleRecord with added := { year := 2025, month := 8, day := 12, weekday := "Tuesday" } }] :=
  C6_temporal_filter.2.2 _

end Inst

namespace Inst

/-! ## C8 -/

/-- C8: filter-criteria validation runs before any filtering and rejects, each
with its own distinct error, (1) a malformed `--date` (anything that is not a
valid `YYYY-MM-DD` calendar date), (2) `--date` combined with any of
`--day`/`--month`/`--week`/`--year`, and (3) `--week` without `--month`; the
validation wrapper returns the error without filtering and the state is
returned unchanged (the filtering commands never write). -/
theorem C8_filter_validation :
    (∀ f : Filters, dateTruthy f = true → isValidDateString (f.date.getD "") = false →
      validateFilterOptions f = some dateFormatErr) ∧
    (∀ f : Filters, dateTruthy f = true → isValidDateString (f.date.getD "") = true →
      (dayTruthy f || monthTruthy f || weekTruthy f || yearTruthy f) = true →
      validateFilterOptions f = some dateMixErr) ∧
    (∀ f : Filters, dateTruthy f = false → weekTruthy f = true → monthTruthy f = false →
      validateFilterOptions f = some weekMonthErr) ∧
    (dateFormatErr ≠ dateMixErr ∧ dateFormatErr ≠ weekMonthErr ∧ dateMixErr ≠ weekMonthErr) ∧
    (∀ (f : Filters) (s : AppState) (e : String),
      validateFilterOptions f = some e → showCmd f s = (Except.error e, s)) ∧
    (∀ (f : Filters) (s : AppState), (showCmd f s).2 = s) ∧
    (∀ f : Filters, dateTruthy f = false → (weekTruthy f = true → monthTruthy f = true) →
      validateFilterOptions f = none) := by
  refine ⟨?_, ?_, ?_, ⟨by decide, by decide, by decide⟩, ?_, ?_, ?_⟩
  · intro f h1 h2
    simp [validateFilterOptions, h1, h2]
  · intro f h1 h2 h3
    simp only [validateFilterOptions, h1, if_true, h2, Bool.not_true, Bool.false_eq_true,
      if_false, h3]
  · intro f h1 h2 h3
    simp [validateFilterOptions, h1, h2, h3]
  · intro f s e h
    simp [showCmd, h]
  · intro f s
    unfold showCmd
    cases validateFilterOptions f <;> rfl
  · intro f h1 h2
    cases hw : weekTruthy f
    · simp [validateFilterOptions, h1, hw]
    · simp [validateFilterOptions, h1, hw, h2 hw]

/-- Witness for C8 at concrete criteria: an impossible calendar day is
rejected as a format error, a date mixed with a month is rejected, and a week
without a month is rejected; each error propagates through the command
wrapper unchanged. -/
theorem C8_filter_validation_witness :
    validateFilterOptions { date := some "2025-02-30" } = some dateFormatErr ∧
    validateFilterOptions { date := some "2025-08-09", month := some 8 } = some dateMixErr ∧
    validateFilterOptions { week := some 2 } = some weekMonthErr ∧
    showCmd { week := some 2 } { store := [sampleRecord], undoStack := [], redoStack := [] }
      = (Except.error weekMonthErr,
         { store := [sampleRecord], undoStack := [], redoStack := [] }) :=
  ⟨C8_filter_validation.1 { date := some "2025-02-30" } (by decide) (by decide),
   C8_filter_validation.2.1 { date := some "2025-08-09", month := some 8 }
     (by decide) (by decide) (by decide),
   C8_filter_validation.2.2.1 { week := some 2 } (by decide) (by decide) (by decide),
   C8_filter_validation.2.2.2.2.1 { week := some 2 }
     { store := [sampleRecord], undoStack := [], redoStack := [] } weekMonthErr
     (C8_filter_validation.2.2.1 { week := some 2 } (by decide) (by decide) (by decide))⟩

/-! ## C9 -/

/-- C9 counterexample: `"12abc"` is neither a numeric string nor a month
name, and `"constructor"` is a month name for nobody — under the claim both
must yield a validation error naming the value (as `monthOfClaim`, the
claim-side definition, does).  But the source accepts `"12abc"` as month 12
(JavaScript `parseInt` reads the leading digit prefix) and accepts
`"constructor"` without any error (the bracket lookup on the plain `monthMap`
object hits the truthy inherited `Object.prototype.constructor`). -/
theorem C9_counterexample :
    monthCoercion "12abc" = Except.ok (MonthValue.num 12) ∧
    monthOfClaim "12abc" = Except.error (invalidMonthMsg "12abc") ∧
    monthCoercion "constructor" = Except.ok (MonthValue.protoMember "constructor") ∧
    monthOfClaim "constructor" = Except.error (invalidMonthMsg "constructor") :=
  ⟨rfl, rfl, rfl, rfl⟩

/-- C9 amended: an input whose `parseInt` value (leading decimal prefix after
optional whitespace and sign) lies in 1..12 is accepted as that number; any
other input is resolved by a bracket lookup on the month-name object after
lowercasing and trimming — the 23 own keys (full English month names and their
standard 3-letter abbreviations) resolve to their month number, and the
all-lowercase inherited `Object.prototype` names `constructor` and
`__proto__` are truthy and accepted without error; every input left over
yields the error `Invalid month: '<input>'.` naming the offending value.
`monthOf("Aug") = 8`, `monthOf("August") = 8` (case-insensitively), and
`monthOf("13")` is an error. -/
theorem C9_month_resolution :
    (∀ (s : String) (n : Int), jsParseInt s = some n → 1 ≤ n → n ≤ 12 →
      monthCoercion s = Except.ok (MonthValue.num n.toNat)) ∧
    (∀ s : String, jsParseInt s = none →
      monthCoercion s =
        (match monthNameLookup s with
         | some v => Except.ok v
         | none => Except.error (invalidMonthMsg s))) ∧
    (∀ (s : String) (n : Int), jsParseInt s = some n → ¬(1 ≤ n ∧ n ≤ 12) →
      monthCoercion s =
        (match monthNameLookup s with
         | some v => Except.ok v
         | none => Except.error (invalidMonthMsg s))) ∧
    (∀ s : String, parseMonth s = none → monthCoercion s = Except.error (invalidMonthMsg s)) ∧
    (∀ s : String, jsParseInt s = none →
      monthPairs.lookup (jsTrim (jsToLower s)) = none →
      jsTrim (jsToLower s) ≠ "constructor" → jsTrim (jsToLower s) ≠ "__proto__" →
      monthCoercion s = Except.error (invalidMonthMsg s)) ∧
    monthCoercion "Aug" = Except.ok (MonthValue.num 8) ∧
    monthCoercion "August" = Except.ok (MonthValue.num 8) ∧
    monthCoercion "AUGUST" = Except.ok (MonthValue.num 8) ∧
    monthCoercion "13" = Except.error (invalidMonthMsg "13") ∧
    monthCoercion "constructor" = Except.ok (MonthValue.protoMember "constructor") ∧
    monthCoercion "__proto__" = Except.ok (MonthValue.protoMember "__proto__") := by
  refine ⟨?_, ?_, ?_, ?_, ?_, rfl, rfl, rfl, rfl, rfl, rfl⟩
  · intro s n h h1 h2
    simp [monthCoercion, parseMonth, h, h1, h2]
  · intro s h
    simp only [monthCoercion, parseMonth, h]
  · intro s n h h12
    simp only [monthCoercion, parseMonth, h, if_neg h12]
  · intro s h
    simp [monthCoercion, h]
  · intro s h hlk hc hp
    have hnl : monthNameLookup s = none := by
      simp [monthNameLookup, jsMonthMapGet, hlk, hc, hp]
    simp [monthCoercion, parseMonth, h, hnl]

/-- Witness for C9: `parseInt("8") = 8` is in range, so `monthOf("8") = 8`;
`parseInt` fails on `"aug"`, so the bracket lookup resolves it; and the
plainly invalid input `"nonsense"` errors, naming the value. -/
theorem C9_month_resolution_witness :
    monthCoercion "8" = Except.ok (MonthValue.num ((8 : Int)).toNat) ∧
    monthCoercion "aug" =
      (match monthNameLookup "aug" with
       | some v => Except.ok v
       | none => Except.error (invalidMonthMsg "aug")) ∧
    monthCoercion "nonsense" = Except.error (invalidMonthMsg "nonsense") :=
  ⟨C9_month_resolution.1 "8" 8 rfl (by decide) (by decide),
   C9_month_resolution.2.1 "aug" rfl,
   C9_month_resolution.2.2.2.2.1 "nonsense" rfl rfl (by decide) (by decide)⟩

end Inst

namespace Inst

/-! ## C10 helpers -/

theorem optStrTruthy_getD_ne (o : Option String) (h : optStrTruthy o = true) : o.getD "" ≠ "" := by
  cases o with
  | none => simp [optStrTruthy] at h
  | some v =>
    simp only [Option.getD_some]
    simpa [optStrTruthy] using h

theorem applyEdit_empty (parse : String → Option DateTime) (r : Record) :
    applyEdit parse (some "") (some "") none none none r = some (r, false) := rfl

theorem editStore_empty_args (parse : String → Option DateTime) (id : Nat) (l : List Record) :
    (editStore parse id (some "") (some "") none none none l).1 ≠ EditResult.applied ∧
    (editStore parse id (some "") (some "") none none none l).2 = l := by
  induction l with
  | nil => exact ⟨by simp [editStore], rfl⟩
  | cons x xs ih =>
    by_cases hx : x.id = id
    · by_cases hd : x.isDeleted
      · simp [editStore, hx, hd]
      · simp [editStore, hx, hd, applyEdit_empty]
    · refine ⟨?_, ?_⟩ <;> simp [editStore, hx, ih.1, ih.2]

theorem applyEdit_source_text (parse : String → Option DateTime)
    (src txt pr st dl : Option String) (r r' : Record) (c : Bool)
    (h : applyEdit parse src txt pr st dl r = some (r', c)) :
    (r'.source = "" → r.source = "") ∧ (r'.text = "" → r.text = "") := by
  unfold applyEdit at h
  have step : ∀ r2 : Record,
      r2.source = (if optStrTruthy src then { r with source := src.getD "" } else r).source →
      r2.text =
        (if optStrTruthy txt
          then { (if optStrTruthy src then { r with source := src.getD "" } else r) with
                  text := txt.getD "" }
          else (if optStrTruthy src then { r with source := src.getD "" } else r)).text →
      (r2.source = "" → r.source = "") ∧ (r2.text = "" → r.text = "") := by
    intro r2 hs ht
    constructor
    · intro h0
      by_cases h1 : optStrTruthy src
      · rw [hs] at h0
        simp only [h1, if_true] at h0
        exact absurd h0 (optStrTruthy_getD_ne src h1)
      · rw [hs] at h0
        simpa [h1] using h0
    · intro h0
      by_cases h2 : optStrTruthy txt
      · rw [ht] at h0
        simp only [h2, if_true] at h0
        exact absurd h0 (optStrTruthy_getD_ne txt h2)
      · rw [ht] at h0
        by_cases h1 : optStrTruthy src <;> simpa [h1, h2] using h0
  by_cases h5 : optStrTruthy dl
  · rw [if_pos h5] at h
    rcases hp : parse (dl.getD "") with _ | d
    · rw [hp] at h
      exact absurd h (by simp)
    · rw [hp] at h
      simp only [Option.some.injEq, Prod.mk.injEq] at h
      obtain ⟨hr, hc⟩ := h
      subst hr
      apply step <;> by_cases h1 : optStrTruthy src <;> by_cases h2 : optStrTruthy txt <;>
        by_cases h3 : optStrTruthy pr <;> by_cases h4 : optStrTruthy st <;>
        simp [h1, h2, h3, h4]
  · rw [if_neg h5] at h
    simp only [Option.some.injEq, Prod.mk.injEq] at h
    obtain ⟨hr, hc⟩ := h
    subst hr
    apply step <;> by_cases h1 : optStrTruthy src <;> by_cases h2 : optStrTruthy txt <;>
      by_cases h3 : optStrTruthy pr <;> by_cases h4 : optStrTruthy st <;>
      simp [h1, h2, h3, h4]

/-! ## C10 -/

/-- C10: in the `edit` handler an empty-string value for `--source` or
`--instruction` is falsy, so the field is treated as not supplied: `applyEdit`
behaves exactly as if the option were absent, the record keeps its old field
value, and when nothing else is supplied the command reports no changes and
leaves the whole state (store, undo, redo) untouched — in particular an edit
can never set `source` or `text` to the empty string. -/
theorem C10_empty_string_edit :
    (∀ (parse : String → Option DateTime) (pr st dl : Option String) (r : Record),
      applyEdit parse (some "") (some "") pr st dl r = applyEdit parse none none pr st dl r) ∧
    (∀ (parse : String → Option DateTime) (id : Nat) (s : AppState),
      editCmd parse id (some "") (some "") none none none s
        = ((editStore parse id (some "") (some "") none none none s.store).1, s) ∧
      (editCmd parse id (some "") (some "") none none none s).1 ≠ EditResult.applied) ∧
    (∀ (parse : String → Option DateTime) (id : Nat) (l : List Record) (r : Record),
      l.find? (fun x => x.id == id) = some r → r.isDeleted = false →
      (editStore parse id (some "") (some "") none none none l).1 = EditResult.noChanges) ∧
    (∀ (parse : String → Option DateTime) (src txt pr st dl : Option String)
        (r r' : Record) (c : Bool),
      applyEdit parse src txt pr st dl r = some (r', c) →
      (r'.source = "" → r.source = "") ∧ (r'.text = "" → r.text = "")) := by
  refine ⟨?_, ?_, ?_, applyEdit_source_text⟩
  · intro parse pr st dl r
    rfl
  · intro parse id s
    have hne := (editStore_empty_args parse id s.store).1
    constructor
    · simp [editCmd, hne]
    · simp [editCmd, hne]
  · intro parse id l r hfind hdel
    rw [editStore_fst, hfind]
    simp [hdel, applyEdit_empty]

/-- Witness for C10: editing the sample record with empty source and
instruction strings reports `noChanges`, and a successful `applyEdit` keeps a
nonempty source nonempty. -/
theorem C10_empty_string_edit_witness :
    (editStore (fun _ => none) 1 (some "") (some "") none none none [sampleRecord]).1
      = EditResult.noChanges ∧
    (sampleRecord.source = "" → sampleRecord.source = "") :=
  ⟨C10_empty_string_edit.2.2.1 (fun _ => none) 1 [sampleRecord] sampleRecord
      (by decide) (by decide),
   (C10_empty_string_edit.2.2.2 (fun _ => none) none none none none none
      sampleRecord sampleRecord false rfl).1⟩

end Inst
